import Mathlib

/-!
# `example/parallel-file-map.cpp`

A shallow embedding of the file-map example of PASL and the properties of its
sequential routine `seq_file_map`, of the file writer `create_file` and of the
driver callbacks `init` and `run`.

Conventions of the embedding.

* `int` is a 32-bit two's-complement integer, kept in `Int`.  The one place
  where the source can leave the range is `n+=8` in the loop header of
  `seq_file_map`.  Signed overflow is undefined in C++, so the embedding does
  not give that step a value: an execution that reaches it ends with the
  outcome `Outcome.undefined`.
* A byte is a `Nat` below 256, a file is a `List Nat`.
* `std::ifstream` is a record holding the bytes of the open file, the get
  position, the state flags, the exception mask and `gcount`.  `setstate`
  raises `ios_base::failure` exactly when a flag of the exception mask gets set,
  so stream operations return `Except ios_failure _`.
* What a routine does to the outside world is recorded as a list of `Event`s,
  which is reported whatever the outcome of the routine is.
-/

namespace ParallelFileMap

/-! ## Machine integers and characters -/

/-- The largest value of an `int`. -/
def INT_MAX : Int := 2147483647

/-- The value of `sizeof (int)`. -/
def sizeof_int : Int := 4

/-- The conversion `(int) c` of a (signed) `char` holding the byte `b`. -/
def char_to_int (b : Nat) : Int :=
  if b < 128 then (b : Int) else (b : Int) - 256

/-! ## The stream model -/

/-- The flags of `std::ios_base::iostate`. -/
structure iostate where
  badbit : Bool
  eofbit : Bool
  failbit : Bool
deriving DecidableEq, Repr

/-- The flag set `ios::goodbit` (no flag). -/
def iostate.goodbit : iostate := ⟨false, false, false⟩

/-- Bitwise or of two flag sets. -/
def iostate.or (a b : iostate) : iostate :=
  ⟨a.badbit || b.badbit, a.eofbit || b.eofbit, a.failbit || b.failbit⟩

/-- Bitwise and of two flag sets. -/
def iostate.and (a b : iostate) : iostate :=
  ⟨a.badbit && b.badbit, a.eofbit && b.eofbit, a.failbit && b.failbit⟩

/-- The exception `std::ios_base::failure`. -/
inductive ios_failure where
  | failure
deriving DecidableEq, Repr

/-- The file system: the bytes stored under each file name. -/
abbrev FS := String → Option (List Nat)

/-- An input file stream. -/
structure ifstream where
  /-- bytes of the associated file, `none` while no file is open -/
  file : Option (List Nat)
  /-- the get position -/
  gpos : Nat
  /-- the value of `rdstate()` -/
  rdstate : iostate
  /-- the value of `exceptions()` -/
  exceptions : iostate
  /-- the value of `gcount()` -/
  gcount : Nat
deriving DecidableEq, Repr

/-- A default-constructed stream: no file, good state, empty exception mask. -/
def ifstream.default : ifstream :=
  { file := none, gpos := 0, rdstate := iostate.goodbit,
    exceptions := iostate.goodbit, gcount := 0 }

/-- The member `clear(s)`: sets the state to `s` and throws when a flag of the
exception mask is then set. -/
def ifstream.clear (f : ifstream) (s : iostate) : Except ios_failure ifstream :=
  if s.and f.exceptions = iostate.goodbit then .ok { f with rdstate := s }
  else .error ios_failure.failure

/-- The member `setstate(s)`, which is `clear(rdstate() | s)`. -/
def ifstream.setstate (f : ifstream) (s : iostate) : Except ios_failure ifstream :=
  f.clear (f.rdstate.or s)

/-- The member `open(name, ios::binary)`: fails (failbit) when a file is already
open or the file does not exist, otherwise attaches the file and clears the
state. -/
def ifstream.open (f : ifstream) (fs : FS) (name : String) : Except ios_failure ifstream :=
  match f.file with
  | some _ => f.setstate ⟨false, false, true⟩
  | none =>
    match fs name with
    | some bytes => ({ f with file := some bytes, gpos := 0 }).clear iostate.goodbit
    | none => f.setstate ⟨false, false, true⟩

/-- The member `seekg(off, ios::beg)`: clears eofbit, then, when the stream is
good, moves the get position to `off`; a stream that is not good, has no file
or is asked for a negative position gets failbit. -/
def ifstream.seekg (f : ifstream) (off : Int) : Except ios_failure ifstream :=
  match f.clear { f.rdstate with eofbit := false } with
  | .error e => .error e
  | .ok f1 =>
    if f1.rdstate = iostate.goodbit then
      match f1.file with
      | some _ =>
        if 0 ≤ off then .ok { f1 with gpos := off.toNat }
        else f1.setstate ⟨false, false, true⟩
      | none => f1.setstate ⟨false, false, true⟩
    else f1.setstate ⟨false, false, true⟩

/-- The member `read(s, n)`: on a good stream extracts up to `n` bytes into the
front of the buffer `s`; when the number extracted is not `n` it sets eofbit
and failbit.  On a stream that is not good it extracts nothing and sets
failbit.  `gcount` is the number of bytes extracted. -/
def ifstream.read (f : ifstream) (s : List Nat) (n : Int) :
    Except ios_failure (ifstream × List Nat) :=
  let f0 := { f with gcount := 0 }
  if f0.rdstate = iostate.goodbit then
    let got := ((f0.file.getD []).drop f0.gpos).take n.toNat
    let f1 := { f0 with gpos := f0.gpos + got.length, gcount := got.length }
    let s1 := got ++ s.drop got.length
    if (got.length : Int) = n then .ok (f1, s1)
    else
      match f1.setstate ⟨false, true, true⟩ with
      | .error e => .error e
      | .ok f2 => .ok (f2, s1)
  else
    match f0.setstate ⟨false, false, true⟩ with
    | .error e => .error e
    | .ok f2 => .ok (f2, s)

/-! ## Observable events and outcomes -/

/-- What the program does to the outside world. -/
inductive Event where
  /-- a call `f.seekg (off, ios::beg)` -/
  | seekg (off : Int)
  /-- a call `f.read (block, count)` that came back having extracted `got`
  bytes and left the stream with `rdstate() = state` -/
  | read (count : Int) (got : Nat) (state : iostate)
  /-- the line `i = <i>m = <m>` written to `cout` -/
  | cout (i : Int) (m : Int)
deriving DecidableEq, Repr

/-- How an execution ends. -/
inductive Outcome (α : Type) where
  /-- the routine returns the value -/
  | returns (a : α)
  /-- an exception leaves the routine -/
  | throws (e : ios_failure)
  /-- the execution reaches a signed overflow, which C++ leaves undefined -/
  | undefined
deriving DecidableEq, Repr

/-- The offsets of the seeks of a trace, in order. -/
def seekOffsets : List Event → List Int
  | [] => []
  | Event.seekg off :: es => off :: seekOffsets es
  | _ :: es => seekOffsets es

/-- The number of reads of a trace. -/
def readCount : List Event → Nat
  | [] => 0
  | Event.read _ _ _ :: es => readCount es + 1
  | _ :: es => readCount es

/-- The number of loop iterations of a trace: each iteration prints one line. -/
def iterations : List Event → Nat
  | [] => 0
  | Event.cout _ _ :: es => iterations es + 1
  | _ :: es => iterations es

/-! ## `seq_file_map` -/

/-- The loop `for (long i=0; i < n;n+=8) { ... }` of `seq_file_map`.  The
variable `i` is set to 0 by the loop header and written nowhere else, so it is a
constant of the loop; the state is the stream, the buffer `block`, `m`, `n` and
the trace.  The step `n+=8` is taken when `n + 8` is an `int`; otherwise the
execution is undefined.  The loop returns the state in which the guard `i < n`
fails. -/
def seq_file_map.loop (block_size : Int) (f : ifstream) (block : List Nat) (m : Int)
    (n : Int) (trace : List Event) :
    List Event × Outcome (ifstream × List Nat × Int × Int) :=
  let i : Int := 0
  if i < n then
    match f.seekg (i * block_size) with
    | .error e => (trace ++ [Event.seekg (i * block_size)], Outcome.throws e)
    | .ok f1 =>
      match f1.read block block_size with
      | .error e => (trace ++ [Event.seekg (i * block_size)], Outcome.throws e)
      | .ok (f2, block1) =>
        let m1 := char_to_int (block1.headD 0)
        let trace1 := trace ++ [Event.seekg (i * block_size),
          Event.read block_size f2.gcount f2.rdstate, Event.cout i m1]
        if _h : n + 8 ≤ INT_MAX then
          seq_file_map.loop block_size f2 block1 m1 (n + 8) trace1
        else (trace1, Outcome.undefined)
  else (trace, Outcome.returns (f, block, m, n))
termination_by (INT_MAX - n).toNat
decreasing_by
  simp only [INT_MAX] at *
  omega

/-- The function `seq_file_map (ifstream f, int n)`.  The argument `heap` is the
content of the fresh array `new char [block_size]`, which the source does not
set.  The result is the trace of the call and its outcome, which is the
returned `int` when the call returns. -/
def seq_file_map (heap : List Nat) (f : ifstream) (n : Int) :
    List Event × Outcome Int :=
  let block_size : Int := sizeof_int
  let block : List Nat := heap
  let sum : Int := 0
  let m : Int := 0
  match seq_file_map.loop block_size f block m n [] with
  | (trace, Outcome.returns _) => (trace, Outcome.returns sum)
  | (trace, Outcome.throws e) => (trace, Outcome.throws e)
  | (trace, Outcome.undefined) => (trace, Outcome.undefined)

/-! ## `create_file` -/

/-- The insertion `out_file << i` of an `int`: the decimal digits of `i` as
characters, after a minus sign when `i` is negative. -/
def num_put (i : Int) : List Nat :=
  (if i < 0 then [45] else []) ++ (Nat.toDigits 10 i.natAbs).map Char.toNat

/-- The loop `for (int i=0; i<n; ++i) out_file << i;` of `create_file`, on the
bytes written so far.  Here `i < n` and `n` is an `int`, so `++i` stays in
range. -/
def create_file.loop (n : Int) (i : Int) (out_file : List Nat) : List Nat :=
  if i < n then create_file.loop n (i + 1) (out_file ++ num_put i) else out_file
termination_by (n - i).toNat
decreasing_by omega

/-- The bytes `create_file (file_name, n)` writes into the file. -/
def create_file.content (n : Int) : List Nat :=
  create_file.loop n 0 []

/-- The function `create_file (file_name, n)`: the file is opened for writing
(which empties it), receives the bytes of the loop and is closed; the open and
the insertions are taken to succeed. -/
def create_file (fs : FS) (file_name : String) (n : Int) : FS :=
  Function.update fs file_name (some (create_file.content n))

/-! ## The driver -/

/-- The variables shared by the callbacks of `main`: the global `cutoff` and the
locals `result` and `n` captured by reference. -/
structure Driver where
  cutoff : Int
  result : Int
  n : Int
deriving DecidableEq, Repr

/-- The state at the start of `main`: `cutoff = 0`, `result = 0`, `n = 0`. -/
def Driver.start : Driver := { cutoff := 0, result := 0, n := 0 }

/-- Modelled from the spec: `pasl::util::cmdline::parse_or_default_int`, which is
not part of the example file.  The command line is the list of its
`-key value` pairs; the value of the first pair with the given key is returned,
and the default when there is none. -/
def parse_or_default_int (cmdline : List (String × Int)) (key : String) (d : Int) : Int :=
  match cmdline.find? (fun kv => kv.1 == key) with
  | some kv => kv.2
  | none => d

/-- The default of `-n` that the header of the file documents. -/
def documented_default_n : Int := 3

/-- The default of `-cutoff` that the header of the file documents. -/
def documented_default_cutoff : Int := 20

/-- The callback `init` of `main`. -/
def init (cmdline : List (String × Int)) (st : Driver) : Driver :=
  let st1 := { st with cutoff := parse_or_default_int cmdline "cutoff" 25 }
  { st1 with n := parse_or_default_int cmdline "n" 24 }

/-- The callback `run` of `main`: the file system it leaves, the trace of
`seq_file_map`, and the outcome, which is the updated variables when `run`
returns. -/
def run (heap : List Nat) (_sequential : Bool) (st : Driver) (fs : FS) :
    FS × List Event × Outcome Driver :=
  let file_name := "input.dat"
  let in_file := ifstream.default
  let fs1 := create_file fs file_name st.n
  match in_file.open fs1 file_name with
  | .error e => (fs1, [], Outcome.throws e)
  | .ok in_file1 =>
    match seq_file_map heap in_file1 st.n with
    | (trace, Outcome.returns sum) => (fs1, trace, Outcome.returns { st with result := sum })
    | (trace, Outcome.throws e) => (fs1, trace, Outcome.throws e)
    | (trace, Outcome.undefined) => (fs1, trace, Outcome.undefined)

/-! ## Specification-side definitions -/

/-- The block of unit `i`: the `sizeof (int)` bytes at offset `i * sizeof (int)`. -/
def blockAt (file : List Nat) (i : Nat) : List Nat :=
  (file.drop (i * 4)).take 4

/-- The scalar of a block: its first byte widened to `int`. -/
def scalarOf (block : List Nat) : Int :=
  char_to_int (block.headD 0)

/-- The direct sequential sum over the units `0 .. n-1` of the scalar of each
block. -/
def directSum (file : List Nat) (n : Nat) : Int :=
  ((List.range n).map (fun i => scalarOf (blockAt file i))).sum

/-- The decimal text of a natural number, most significant digit first, as
character codes. -/
def decimalText (k : Nat) : List Nat :=
  if k = 0 then [48] else ((Nat.digits 10 k).reverse).map (fun d => 48 + d)

/-- The file format: the decimal texts of `0, 1, ..., n-1` one after the other
with nothing in between. -/
def digitFile (n : Nat) : List Nat :=
  (List.range n).flatMap decimalText

/-- The number of decimal digits of a natural number. -/
def decimalWidth (k : Nat) : Nat :=
  Nat.log 10 k + 1

/-- The total number of decimal digits of `0, 1, ..., n-1`. -/
def totalDigits (n : Nat) : Nat :=
  ((List.range n).map decimalWidth).sum

/-- The number of times the body of the loop of `seq_file_map` runs when the
loop is entered with an `int` value `n`: none when `n <= 0`, otherwise once for
each of `n, n+8, n+16, ...` that does not exceed `INT_MAX`. -/
def loopCount (n : Int) : Nat :=
  if 0 < n then ((2147483647 - n) / 8 + 1).toNat else 0

/-- The stream `in_file` that `run` hands to `seq_file_map` when the file holds
`bytes`: freshly opened, at position 0, good, with the empty exception mask. -/
def in_file_on (bytes : List Nat) : ifstream :=
  { ifstream.default with file := some bytes }

/-- The `int` a call of `seq_file_map` returns, when it returns. -/
def returned (r : List Event × Outcome Int) : Option Int :=
  match r.2 with
  | Outcome.returns v => some v
  | _ => none

/-- The value of `result` after a call of `run`, when it returns. -/
def storedResult (r : FS × List Event × Outcome Driver) : Option Int :=
  match r.2.2 with
  | Outcome.returns st => some st.result
  | _ => none


/-! ## Stream operations under the empty exception mask -/

/-- With the empty exception mask `clear` sets the state and does not throw. -/
theorem clear_goodmask (f : ifstream) (s : iostate) (h : f.exceptions = iostate.goodbit) :
    f.clear s = .ok { f with rdstate := s } := by
  simp [ifstream.clear, h, iostate.and, iostate.goodbit]

/-- With the empty exception mask `setstate` adds the flags and does not throw. -/
theorem setstate_goodmask (f : ifstream) (s : iostate) (h : f.exceptions = iostate.goodbit) :
    f.setstate s = .ok { f with rdstate := f.rdstate.or s } := by
  simp [ifstream.setstate, clear_goodmask f _ h]

/-- With the empty exception mask `seekg` returns, and the mask stays empty. -/
theorem seekg_goodmask (f : ifstream) (off : Int) (h : f.exceptions = iostate.goodbit) :
    ∃ f1, f.seekg off = .ok f1 ∧ f1.exceptions = iostate.goodbit := by
  unfold ifstream.seekg
  rw [clear_goodmask f _ h]
  simp only
  repeat' split
  all_goals first
    | exact ⟨_, rfl, h⟩
    | exact ⟨_, setstate_goodmask _ _ h, h⟩

/-- With the empty exception mask `read` returns and the mask stays empty; a
read that extracted another number of bytes than asked for leaves failbit
set. -/
theorem read_goodmask (f : ifstream) (s : List Nat) (n : Int)
    (h : f.exceptions = iostate.goodbit) :
    ∃ f1 s1, f.read s n = .ok (f1, s1) ∧ f1.exceptions = iostate.goodbit ∧
      ((f1.gcount : Int) ≠ n → f1.rdstate.failbit = true) := by
  unfold ifstream.read
  simp only
  split_ifs with h1 h2
  · exact ⟨_, _, rfl, h, fun hne => absurd h2 hne⟩
  · rw [setstate_goodmask _ _ (by exact h)]
    exact ⟨_, _, rfl, h, fun _ => by simp [iostate.or]⟩
  · rw [setstate_goodmask _ _ (by exact h)]
    exact ⟨_, _, rfl, h, fun _ => by simp [iostate.or]⟩

/-- The loop of `seq_file_map` entered with `0 < n <= INT_MAX` on a stream with
the empty exception mask: it raises nothing and never leaves through its guard;
the body runs `loopCount n` times, each time with one seek to offset 0, one
read of 4 bytes and one printed line, and then `n+=8` overflows.  A read that
extracted fewer than 4 bytes left failbit set.  By induction on the distance of
`n` to `INT_MAX`. -/
theorem loop_goodmask (k : Nat) :
    ∀ (f : ifstream) (block : List Nat) (m n : Int) (trace : List Event),
      (INT_MAX - n).toNat = k → 0 < n → n ≤ INT_MAX → f.exceptions = iostate.goodbit →
      ∃ t,
        seq_file_map.loop sizeof_int f block m n trace = (trace ++ t, Outcome.undefined) ∧
        (∀ off ∈ seekOffsets t, off = 0) ∧
        (seekOffsets t).length = iterations t ∧
        readCount t = iterations t ∧
        iterations t = loopCount n ∧
        (∀ c g s, Event.read c g s ∈ t → c = 4 ∧ ((g : Int) ≠ 4 → s.failbit = true)) := by
  induction k using Nat.strong_induction_on with
  | _ k ih =>
    intro f block m n trace hk hn hmax hf
    rw [seq_file_map.loop]
    obtain ⟨f1, h1, hf1⟩ := seekg_goodmask f (0 * sizeof_int) hf
    obtain ⟨f2, b2, h2, hf2, hfail⟩ := read_goodmask f1 block sizeof_int hf1
    simp only [hn, if_true, h1, h2]
    simp only [INT_MAX] at hk hmax
    split_ifs with hstep
    · simp only [INT_MAX] at hstep
      obtain ⟨t, h3, hs, hl, hr, hc, hrd⟩ :=
        ih ((INT_MAX - (n + 8)).toNat) (by simp only [INT_MAX]; omega) f2 b2
          (char_to_int (b2.headD 0)) (n + 8)
          (trace ++ [Event.seekg (0 * sizeof_int), Event.read sizeof_int f2.gcount f2.rdstate,
                     Event.cout 0 (char_to_int (b2.headD 0))]) rfl (by omega)
          (by simp only [INT_MAX]; omega) hf2
      refine ⟨Event.seekg (0 * sizeof_int) :: Event.read sizeof_int f2.gcount f2.rdstate ::
                Event.cout 0 (char_to_int (b2.headD 0)) :: t, ?_, ?_, ?_, ?_, ?_, ?_⟩
      · rw [h3]; simp
      · intro off hoff
        simp only [seekOffsets, List.mem_cons] at hoff
        rcases hoff with h | h
        · simp [h]
        · exact hs off h
      · simp only [seekOffsets, iterations, List.length_cons, hl]
      · simp only [readCount, iterations, hr]
      · simp only [iterations, hc, loopCount]
        split_ifs <;> omega
      · intro c g s hmem
        simp only [List.mem_cons, Event.read.injEq, reduceCtorEq, false_or] at hmem
        rcases hmem with ⟨rfl, rfl, rfl⟩ | hmem
        · exact ⟨rfl, hfail⟩
        · exact hrd c g s hmem
    · simp only [INT_MAX] at hstep
      refine ⟨[Event.seekg (0 * sizeof_int), Event.read sizeof_int f2.gcount f2.rdstate,
                Event.cout 0 (char_to_int (b2.headD 0))], rfl, ?_, ?_, ?_, ?_, ?_⟩
      · intro off hoff
        simp only [seekOffsets, List.mem_singleton] at hoff
        simp [hoff]
      · simp [seekOffsets, iterations]
      · simp [readCount, iterations]
      · simp only [iterations, loopCount]
        rw [if_pos hn]; omega
      · intro c g s hmem
        simp only [List.mem_cons, Event.read.injEq, reduceCtorEq, false_or, List.mem_singleton,
          List.not_mem_nil, or_false] at hmem
        obtain ⟨rfl, rfl, rfl⟩ := hmem
        exact ⟨rfl, hfail⟩

/-! ## `seq_file_map` and `run` -/

/-- The call `seq_file_map (f, n)` with `0 < n <= INT_MAX` on a stream with the
empty exception mask: the outcome is the overflow of `n+=8`, after the trace
described by `loop_goodmask`. -/
theorem seq_file_map_goodmask (heap : List Nat) (f : ifstream) (n : Int)
    (hn : 0 < n) (hmax : n ≤ INT_MAX) (hf : f.exceptions = iostate.goodbit) :
    ∃ t, seq_file_map heap f n = (t, Outcome.undefined) ∧
      (∀ off ∈ seekOffsets t, off = 0) ∧
      (seekOffsets t).length = iterations t ∧
      readCount t = iterations t ∧
      iterations t = loopCount n ∧
      (∀ c g s, Event.read c g s ∈ t → c = 4 ∧ ((g : Int) ≠ 4 → s.failbit = true)) := by
  obtain ⟨t, h, hs, hl, hr, hc, hrd⟩ :=
    loop_goodmask _ f heap 0 n [] rfl hn hmax hf
  refine ⟨t, ?_, hs, hl, hr, hc, hrd⟩
  simp only [seq_file_map, h, List.nil_append]

/-- Whatever the stream, a value that `seq_file_map` returns is 0. -/
theorem seq_file_map_returns_zero (heap : List Nat) (f : ifstream) (n v : Int)
    (t : List Event) (h : seq_file_map heap f n = (t, Outcome.returns v)) : v = 0 := by
  simp only [seq_file_map] at h
  split at h
  · simp only [Prod.mk.injEq, Outcome.returns.injEq] at h
    exact h.2.symm
  · simp at h
  · simp at h

/-- Opening an existing file on a default-constructed stream succeeds. -/
theorem open_default (fs : FS) (name : String) (bytes : List Nat) (h : fs name = some bytes) :
    ifstream.default.open fs name = .ok (in_file_on bytes) := by
  simp [ifstream.open, ifstream.default, h, ifstream.clear, iostate.and, iostate.goodbit,
    in_file_on]

/-- The stream that `run` hands to `seq_file_map` is the one on the file that
`create_file` has just written. -/
theorem run_open (fs : FS) (n : Int) :
    ifstream.default.open (create_file fs "input.dat" n) "input.dat"
      = .ok (in_file_on (create_file.content n)) :=
  open_default _ _ _ (by simp [create_file])

/-- The file system that `run` leaves is the one after `create_file`, and its
trace is the one of `seq_file_map` on the file written. -/
theorem run_effects (heap : List Nat) (b : Bool) (st : Driver) (fs : FS) :
    (run heap b st fs).1 = create_file fs "input.dat" st.n ∧
    (run heap b st fs).2.1 = (seq_file_map heap (in_file_on (create_file.content st.n)) st.n).1 := by
  simp only [run, run_open]
  constructor <;> split <;> simp_all

/-- With `0 < n <= INT_MAX` the callback `run` ends in the overflow of `n+=8`. -/
theorem run_undefined (heap : List Nat) (b : Bool) (st : Driver) (fs : FS)
    (hn : 0 < st.n) (hmax : st.n ≤ INT_MAX) :
    (run heap b st fs).2.2 = Outcome.undefined := by
  obtain ⟨t, ht, -⟩ :=
    seq_file_map_goodmask heap (in_file_on (create_file.content st.n)) st.n hn hmax rfl
  simp only [run, run_open, ht]

/-- The first read on a freshly opened stream: the first four bytes of the
file, or all of them when there are fewer, land in the front of the buffer; when
there are fewer than four the stream is left with eofbit and failbit, otherwise
it stays good. -/
theorem read_in_file_on (heap bytes : List Nat) :
    ∃ f2, (in_file_on bytes).read heap sizeof_int
        = .ok (f2, bytes.take 4 ++ heap.drop (min bytes.length 4)) ∧
      f2.exceptions = iostate.goodbit ∧ f2.gcount = min bytes.length 4 ∧
      f2.rdstate = if bytes.length < 4 then ⟨false, true, true⟩ else iostate.goodbit := by
  simp only [ifstream.read, in_file_on, ifstream.default, sizeof_int]
  simp only [if_true]
  split_ifs with hlen h4 h4
  · simp at hlen; omega
  · refine ⟨{ file := some bytes, gpos := bytes.length ⊓ 4, rdstate := iostate.goodbit,
              exceptions := iostate.goodbit, gcount := bytes.length ⊓ 4 }, ?_, rfl, rfl, rfl⟩
    simp [Nat.min_comm]
  · rw [setstate_goodmask _ _ rfl]
    refine ⟨{ file := some bytes, gpos := bytes.length ⊓ 4,
              rdstate := ⟨false, true, true⟩,
              exceptions := iostate.goodbit, gcount := bytes.length ⊓ 4 }, ?_, rfl, rfl, rfl⟩
    simp [Nat.min_comm, iostate.or, iostate.goodbit]
  · simp at hlen; omega

/-- The first run of the body on a freshly opened stream: the seek goes to
offset 0, the read extracts the first `min (length) 4` bytes of the file into
the front of the buffer, leaving eofbit and failbit when they are fewer than
four, and the first byte of the buffer is printed. -/
theorem seq_file_map_first_iteration (heap bytes : List Nat) (n : Int) (hn : 0 < n)
    (hmax : n ≤ INT_MAX) :
    ∃ t, seq_file_map heap (in_file_on bytes) n
      = (Event.seekg 0 ::
          Event.read 4 (min bytes.length 4)
            (if bytes.length < 4 then ⟨false, true, true⟩ else iostate.goodbit) ::
          Event.cout 0 (char_to_int ((bytes.take 4 ++ heap.drop (min bytes.length 4)).headD 0))
            :: t, Outcome.undefined) := by
  have h1 : (in_file_on bytes).seekg (0 * sizeof_int) = .ok (in_file_on bytes) := by
    simp [ifstream.seekg, in_file_on, ifstream.default, ifstream.clear, iostate.and,
      iostate.goodbit]
  obtain ⟨f2, h2, hf2, hg, hst⟩ := read_in_file_on heap bytes
  generalize (if bytes.length < 4 then (⟨false, true, true⟩ : iostate) else iostate.goodbit)
    = s0 at hst ⊢
  simp only [seq_file_map]
  rw [seq_file_map.loop]
  simp only [hn, if_true, h1, h2, List.nil_append, hg, hst]
  split_ifs with hstep
  · simp only [INT_MAX] at hstep hmax
    obtain ⟨t, h3, -⟩ :=
      loop_goodmask _ f2 (bytes.take 4 ++ heap.drop (min bytes.length 4))
        (char_to_int ((bytes.take 4 ++ heap.drop (min bytes.length 4)).headD 0))
        (n + 8)
        [Event.seekg (0 * sizeof_int), Event.read sizeof_int (min bytes.length 4) s0,
          Event.cout 0 (char_to_int ((bytes.take 4 ++ heap.drop (min bytes.length 4)).headD 0))]
        rfl (by omega) (by simp only [INT_MAX]; omega) hf2
    refine ⟨t, ?_⟩
    rw [h3]
    simp [sizeof_int]
  · exact ⟨[], by simp [sizeof_int]⟩

/-! ## The claims about `seq_file_map` and `run` -/

/-- Claim C1 (the code departs from the claim): on the one-unit file with bytes
1, 0, 0, 0 the direct sequential sum of the block scalars over the units
`[0, 1)` is 1.  The call `seq_file_map (f, 1)` reads that scalar into `m` and
prints it, but never returns 1: a value it returns is the untouched `sum = 0`,
and this execution does not return at all, it ends in the overflow of
`n+=8`. -/
theorem seq_file_map_misses_direct_sum :
    directSum [1, 0, 0, 0] 1 = 1 ∧
      ∀ heap : List Nat,
        returned (seq_file_map heap (in_file_on [1, 0, 0, 0]) 1) ≠ some 1 ∧
        (∃ t, seq_file_map heap (in_file_on [1, 0, 0, 0]) 1
          = (Event.seekg 0 :: Event.read 4 4 iostate.goodbit :: Event.cout 0 1 :: t,
              Outcome.undefined)) ∧
        (∀ t v, seq_file_map heap (in_file_on [1, 0, 0, 0]) 1 = (t, Outcome.returns v) →
          v = 0) := by
  refine ⟨by decide, fun heap => ?_⟩
  obtain ⟨t, ht⟩ := seq_file_map_first_iteration heap [1, 0, 0, 0] 1 (by decide) (by decide)
  refine ⟨?_, ⟨t, ?_⟩, fun t v h => seq_file_map_returns_zero _ _ _ _ _ h⟩
  · rw [ht]; simp [returned]
  · rw [ht]; rfl

/-- Claim C2: for every `n`, every file system and any two cutoffs `c1, c2 > 0`, the
`result` that `run` stores when the global `cutoff` is `c1` equals the one it
stores when the global `cutoff` is `c2`; the file system it leaves and its trace
are the same as well. -/
theorem run_result_cutoff_independent (heap : List Nat) (b : Bool) (result n : Int) (fs : FS)
    (c1 c2 : Int) (_h1 : 0 < c1) (_h2 : 0 < c2) :
    storedResult (run heap b { cutoff := c1, result := result, n := n } fs)
      = storedResult (run heap b { cutoff := c2, result := result, n := n } fs) ∧
    (run heap b { cutoff := c1, result := result, n := n } fs).1
      = (run heap b { cutoff := c2, result := result, n := n } fs).1 ∧
    (run heap b { cutoff := c1, result := result, n := n } fs).2.1
      = (run heap b { cutoff := c2, result := result, n := n } fs).2.1 := by
  refine ⟨?_, ?_, ?_⟩
  · simp only [run, run_open]
    generalize seq_file_map heap (in_file_on (create_file.content n)) n = r
    obtain ⟨t, o⟩ := r
    cases o <;> rfl
  · rw [(run_effects heap b _ fs).1, (run_effects heap b _ fs).1]
  · rw [(run_effects heap b _ fs).2, (run_effects heap b _ fs).2]

/-- Witness of claim C2: `n = 24` with cutoff 5 against `n = 24` with cutoff 25, on a
file system without files. -/
theorem run_result_cutoff_independent_witness :
    storedResult (run [0, 0, 0, 0] false { cutoff := 5, result := 0, n := 24 } (fun _ => none))
      = storedResult (run [0, 0, 0, 0] false { cutoff := 25, result := 0, n := 24 }
          (fun _ => none)) ∧
    (run [0, 0, 0, 0] false { cutoff := 5, result := 0, n := 24 } (fun _ => none)).1
      = (run [0, 0, 0, 0] false { cutoff := 25, result := 0, n := 24 } (fun _ => none)).1 ∧
    (run [0, 0, 0, 0] false { cutoff := 5, result := 0, n := 24 } (fun _ => none)).2.1
      = (run [0, 0, 0, 0] false { cutoff := 25, result := 0, n := 24 } (fun _ => none)).2.1 :=
  run_result_cutoff_independent [0, 0, 0, 0] false 0 24 (fun _ => none) 5 25
    (by decide) (by decide)

/-- Claim C3 (the claim fails): with `n = 1` and an empty file, which has fewer than
`1 * 4` bytes, `seq_file_map` raises nothing at unit 0: its first read asks for
4 bytes, extracts 0 and only leaves eofbit and failbit on the stream; the body
then runs 268435455 more times, and the execution ends in the overflow of
`n+=8`, not in an error. -/
theorem seq_file_map_short_read_unreported :
    (([] : List Nat).length : Int) < 1 * sizeof_int ∧
      ∃ t, seq_file_map [0, 0, 0, 0] (in_file_on []) 1
          = (Event.seekg 0 :: Event.read 4 0 ⟨false, true, true⟩ :: Event.cout 0 0 :: t,
              Outcome.undefined) ∧
        iterations t = 268435455 := by
  refine ⟨by decide, ?_⟩
  obtain ⟨t, h⟩ := seq_file_map_first_iteration [0, 0, 0, 0] [] 1 (by decide) (by decide)
  obtain ⟨t1, h1, -, -, -, hc, -⟩ :=
    seq_file_map_goodmask [0, 0, 0, 0] (in_file_on []) 1 (by decide) (by decide) rfl
  refine ⟨t, by rw [h]; rfl, ?_⟩
  rw [h] at h1
  simp only [Prod.mk.injEq, and_true] at h1
  have hc1 : loopCount 1 = 268435456 := by decide
  rw [← h1, hc1] at hc
  simpa [iterations] using hc

/-- Claim C3, amended: for every `n > 0` and every input file with fewer than `n * 4`
bytes, `seq_file_map (f, n)` on the stream as `run` opens it raises no error:
its first read asks for 4 bytes at offset 0 and extracts the
`min (file length) 4` bytes that are there; when these are fewer than 4 the
read only leaves eofbit and failbit on the stream; and every read of the call
that extracts fewer than 4 bytes leaves failbit set. -/
theorem seq_file_map_short_file_raises_nothing (heap bytes : List Nat) (n : Int)
    (hn : 0 < n) (hmax : n ≤ INT_MAX) (_hlen : (bytes.length : Int) < n * sizeof_int) :
    ∃ m t o, seq_file_map heap (in_file_on bytes) n
        = (Event.seekg 0 ::
            Event.read 4 (min bytes.length 4)
              (if bytes.length < 4 then ⟨false, true, true⟩ else iostate.goodbit) ::
            Event.cout 0 m :: t, o) ∧
      (∀ e, o ≠ Outcome.throws e) ∧
      (∀ c g s, Event.read c g s ∈ t → g < 4 → s.failbit = true) := by
  obtain ⟨t, h⟩ := seq_file_map_first_iteration heap bytes n hn hmax
  obtain ⟨t1, h1, -, -, -, -, hrd⟩ :=
    seq_file_map_goodmask heap (in_file_on bytes) n hn hmax rfl
  refine ⟨_, t, Outcome.undefined, h, fun e => by simp, ?_⟩
  intro c g s hmem hg
  rw [h] at h1
  simp only [Prod.mk.injEq, and_true] at h1
  refine (hrd c g s ?_).2 (by omega)
  rw [← h1]
  simp [hmem]

/-- Witness of the amended claim C3: `n = 24` on the two-byte file `49, 50`. -/
theorem seq_file_map_short_file_raises_nothing_witness :
    ∃ m t o, seq_file_map [0, 0, 0, 0] (in_file_on [49, 50]) 24
        = (Event.seekg 0 ::
            Event.read 4 (min [49, 50].length 4)
              (if [49, 50].length < 4 then ⟨false, true, true⟩ else iostate.goodbit) ::
            Event.cout 0 m :: t, o) ∧
      (∀ e, o ≠ Outcome.throws e) ∧
      (∀ c g s, Event.read c g s ∈ t → g < 4 → s.failbit = true) :=
  seq_file_map_short_file_raises_nothing [0, 0, 0, 0] [49, 50] 24 (by decide) (by decide)
    (by decide)

/-- Claim C4 (the code departs from the claim): `seq_file_map (f, 2)` issues
268435456 seeks, each followed by one read, and every seek goes to offset 0,
so the offsets are not the sequence 0, 4. -/
theorem seq_file_map_seeks_stay_at_zero (heap bytes : List Nat) :
    ∃ t, seq_file_map heap (in_file_on bytes) 2 = (t, Outcome.undefined) ∧
      (seekOffsets t).length = 268435456 ∧
      readCount t = 268435456 ∧
      (∀ off ∈ seekOffsets t, off = 0) ∧
      seekOffsets t ≠ [0, 4] := by
  obtain ⟨t, ht, hs, hl, hr, hc, -⟩ :=
    seq_file_map_goodmask heap (in_file_on bytes) 2 (by decide) (by decide) rfl
  have hiter : iterations t = 268435456 := by
    rw [hc]; decide
  have hcount : (seekOffsets t).length = 268435456 := by
    rw [hl, hiter]
  refine ⟨t, ht, hcount, by rw [hr, hiter], hs, ?_⟩
  intro h
  rw [h] at hcount
  exact absurd hcount (by decide)

/-- Claim C5 (the code departs from the claim): for every `int` value `n > 0`, every
cutoff and every input stream with the empty exception mask, the loop of
`seq_file_map (f, n)` never leaves through its guard: `i` stays 0, so the guard
`i < n` holds at `n, n + 8, n + 16, ...` without end; the body runs
`loopCount n` times and then `n+=8` overflows.  Neither `seq_file_map` nor
`run` returns. -/
theorem seq_file_map_never_leaves_loop (heap : List Nat) (b : Bool) (f : ifstream)
    (cutoff result n : Int) (fs : FS) (hn : 0 < n) (hmax : n ≤ INT_MAX)
    (hf : f.exceptions = iostate.goodbit) :
    (∀ k : Nat, (0 : Int) < n + 8 * k) ∧
    (∃ t, seq_file_map heap f n = (t, Outcome.undefined) ∧ iterations t = loopCount n) ∧
    returned (seq_file_map heap f n) = none ∧
    (run heap b { cutoff := cutoff, result := result, n := n } fs).2.2 = Outcome.undefined ∧
    storedResult (run heap b { cutoff := cutoff, result := result, n := n } fs) = none := by
  obtain ⟨t, ht, -, -, -, hc, -⟩ := seq_file_map_goodmask heap f n hn hmax hf
  have hr := run_undefined heap b { cutoff := cutoff, result := result, n := n } fs hn hmax
  refine ⟨fun k => by omega, ⟨t, ht, hc⟩, ?_, hr, ?_⟩
  · rw [ht]; rfl
  · simp only [storedResult, hr]

/-- Witness of claim C5: `n = 1` with cutoff 0; the body runs 268435456 times. -/
theorem seq_file_map_never_leaves_loop_witness :
    (∀ k : Nat, (0 : Int) < 1 + 8 * k) ∧
    (∃ t, seq_file_map [0, 0, 0, 0] (in_file_on [48]) 1 = (t, Outcome.undefined) ∧
      iterations t = 268435456) ∧
    returned (seq_file_map [0, 0, 0, 0] (in_file_on [48]) 1) = none ∧
    (run [0, 0, 0, 0] false { cutoff := 0, result := 0, n := 1 } (fun _ => none)).2.2
      = Outcome.undefined ∧
    storedResult (run [0, 0, 0, 0] false { cutoff := 0, result := 0, n := 1 } (fun _ => none))
      = none := by
  have h := seq_file_map_never_leaves_loop [0, 0, 0, 0] false (in_file_on [48]) 0 0 1
    (fun _ => none) (by decide) (by decide) rfl
  have e : loopCount 1 = 268435456 := by decide
  rw [e] at h
  exact h

/-- Claim C6: for `n = 0`, every stream and every content of the fresh buffer,
`seq_file_map (f, 0)` returns 0 and its trace is empty: no seek, no read. -/
theorem seq_file_map_empty_range (heap : List Nat) (f : ifstream) :
    seq_file_map heap f 0 = ([], Outcome.returns 0) := by
  simp only [seq_file_map]
  rw [seq_file_map.loop]
  simp

/-- The character of a decimal digit has the code `48 + d`. -/
theorem digitChar_toNat (d : Nat) (h : d < 10) : (Nat.digitChar d).toNat = 48 + d := by
  interval_cases d <;> rfl

/-- With enough fuel `Nat.toDigitsCore` prepends the digits of a positive number,
most significant first. -/
theorem toDigitsCore_eq_digits (fuel : Nat) :
    ∀ (k : Nat) (ds : List Char), 0 < k → k < fuel →
      Nat.toDigitsCore 10 fuel k ds = ((Nat.digits 10 k).reverse).map Nat.digitChar ++ ds := by
  induction fuel with
  | zero => intro k ds _ h; omega
  | succ fuel ih =>
    intro k ds hk hf
    rw [Nat.toDigitsCore, Nat.digits_def' (by decide) hk]
    split_ifs with h0
    · have : k < 10 := by omega
      rw [h0]
      simp
    · have hpos : 0 < k / 10 := Nat.pos_of_ne_zero h0
      rw [ih (k / 10) _ hpos (by omega)]
      simp

/-- The insertion of a non-negative `int` writes its decimal text. -/
theorem num_put_natCast (k : Nat) : num_put (k : Int) = decimalText k := by
  unfold num_put decimalText
  have hneg : ¬ ((k : Int) < 0) := by omega
  simp only [hneg, if_false, List.nil_append, Int.natAbs_ofNat]
  split_ifs with h0
  · subst h0; rfl
  · rw [Nat.toDigits, toDigitsCore_eq_digits (k + 1) k [] (Nat.pos_of_ne_zero h0) (by omega)]
    simp only [List.append_nil, List.map_map]
    apply List.map_congr_left
    intro d hd
    simp only [Function.comp]
    exact digitChar_toNat d (Nat.digits_lt_base (by decide) (List.mem_reverse.mp hd))

/-- The loop of `create_file` entered with `i` and bound `i + d` appends the
decimal texts of `i, ..., i + d - 1`. -/
theorem create_file_loop_eq (d : Nat) :
    ∀ (i : Nat) (out : List Nat),
      create_file.loop ((i : Int) + d) i out = out ++ (List.range' i d).flatMap decimalText := by
  induction d with
  | zero =>
    intro i out
    rw [create_file.loop]
    simp
  | succ d ih =>
    intro i out
    rw [create_file.loop]
    have hlt : (i : Int) < (i : Int) + ((d + 1 : Nat) : Int) := by omega
    simp only [hlt, if_true]
    have := ih (i + 1) (out ++ num_put (i : Int))
    have e : ((i + 1 : Nat) : Int) + (d : Int) = (i : Int) + ((d + 1 : Nat) : Int) := by
      push_cast; ring
    rw [e] at this
    have e2 : ((i + 1 : Nat) : Int) = (i : Int) + 1 := by push_cast; ring
    rw [e2] at this
    rw [this, num_put_natCast]
    simp [List.range'_succ]

/-- The bytes written by `create_file` are the digit file. -/
theorem create_file_content_eq (n : Nat) : create_file.content (n : Int) = digitFile n := by
  have := create_file_loop_eq n 0 []
  simp only [Nat.cast_zero, zero_add, List.nil_append] at this
  rw [create_file.content, this, digitFile, List.range_eq_range']

/-- The decimal text of `k` has `decimalWidth k` characters. -/
theorem decimalText_length (k : Nat) : (decimalText k).length = decimalWidth k := by
  unfold decimalText decimalWidth
  split_ifs with h0
  · subst h0; simp
  · simp [Nat.digits_len 10 k (by decide) h0]

/-- One more number appends its decimal text. -/
theorem digitFile_succ (n : Nat) : digitFile (n + 1) = digitFile n ++ decimalText n := by
  simp [digitFile, List.range_succ]

/-- One more number adds its width. -/
theorem totalDigits_succ (n : Nat) : totalDigits (n + 1) = totalDigits n + decimalWidth n := by
  simp [totalDigits, List.range_succ]

/-- The length of the digit file is the total number of digits. -/
theorem digitFile_length (n : Nat) : (digitFile n).length = totalDigits n := by
  induction n with
  | zero => rfl
  | succ n ih => rw [digitFile_succ, totalDigits_succ, List.length_append, ih, decimalText_length]

/-- The width of a number below 100000. -/
theorem decimalWidth_cases (k : Nat) (h : k < 100000) :
    decimalWidth k =
      if k < 10 then 1 else if k < 100 then 2 else if k < 1000 then 3
      else if k < 10000 then 4 else 5 := by
  unfold decimalWidth
  split_ifs with h1 h2 h3 h4
  · rw [Nat.log_of_lt h1]
  · rw [Nat.log_eq_of_pow_le_of_lt_pow (m := 1) (by omega) (by omega)]
  · rw [Nat.log_eq_of_pow_le_of_lt_pow (m := 2) (by omega) (by omega)]
  · rw [Nat.log_eq_of_pow_le_of_lt_pow (m := 3) (by omega) (by omega)]
  · rw [Nat.log_eq_of_pow_le_of_lt_pow (m := 4) (by omega) (by omega)]

/-- The total number of digits of `0, ..., n-1` in closed form, up to 100000. -/
theorem totalDigits_closed (n : Nat) (h : n ≤ 100000) :
    totalDigits n =
      if n ≤ 10 then n else if n ≤ 100 then 2 * n - 10 else if n ≤ 1000 then 3 * n - 110
      else if n ≤ 10000 then 4 * n - 1110 else 5 * n - 11110 := by
  induction n with
  | zero => rfl
  | succ n ih =>
    rw [totalDigits_succ, ih (by omega), decimalWidth_cases n (by omega)]
    split_ifs <;> omega

/-! ## The claims about `create_file` and `init` -/

/-- Claim C7: for every `n >= 0`, `create_file (file_name, n)` leaves in the file
exactly the decimal texts of `0, 1, ..., n-1`, in increasing order with nothing
between them; for `n = 0` the file is empty. -/
theorem create_file_writes_digit_file (fs : FS) (file_name : String) (n : Nat) :
    create_file fs file_name (n : Int) = Function.update fs file_name (some (digitFile n)) ∧
      create_file fs file_name 0 = Function.update fs file_name (some []) := by
  constructor
  · rw [create_file, create_file_content_eq]
  · have := create_file_content_eq 0
    simp only [Nat.cast_zero] at this
    rw [create_file, this]; rfl

/-- Claim C8 (the code departs from its header): with neither `-n` nor `-cutoff` on
the command line, `init` sets `n` to 24 and `cutoff` to 25, not the 3 and 20 of
the documented defaults. -/
theorem init_defaults_differ_from_header (st : Driver) :
    init [] st = { st with cutoff := 25, n := 24 } ∧
      (init [] st).n ≠ documented_default_n ∧
      (init [] st).cutoff ≠ documented_default_cutoff := by
  refine ⟨rfl, ?_, ?_⟩
  · show (24 : Int) ≠ 3
    decide
  · show (25 : Int) ≠ 20
    decide

/-- Claim C10: for every `n` with `0 < n < 11110` the file written by
`create_file (file_name, n)` has as many bytes as `0, ..., n-1` have decimal
digits, fewer than `n * sizeof (int)`; at `n = 11110` it has exactly
`11110 * 4` bytes; and the file `input.dat` that `run` leaves behind for such
an `n` is shorter than `n * sizeof (int)` bytes. -/
theorem create_file_shorter_than_blocks (n : Nat) (h0 : 0 < n) (h1 : n < 11110) :
    (create_file.content (n : Int)).length = totalDigits n ∧
    (totalDigits n : Int) < (n : Int) * sizeof_int ∧
    (create_file.content 11110).length = 11110 * 4 ∧
    (∀ (heap : List Nat) (b : Bool) (cutoff result : Int) (fs : FS),
      ∃ bytes,
        (run heap b { cutoff := cutoff, result := result, n := (n : Int) } fs).1 "input.dat"
          = some bytes ∧
        (bytes.length : Int) < (n : Int) * sizeof_int) := by
  have hlen : (create_file.content (n : Int)).length = totalDigits n := by
    rw [create_file_content_eq, digitFile_length]
  have hlt : (totalDigits n : Int) < (n : Int) * sizeof_int := by
    have hc := totalDigits_closed n (by omega)
    simp only [sizeof_int]
    split_ifs at hc <;> omega
  refine ⟨hlen, hlt, ?_, ?_⟩
  · have := create_file_content_eq 11110
    simp only [Nat.cast_ofNat] at this
    rw [this, digitFile_length, totalDigits_closed 11110 (by decide)]
    decide
  · intro heap b cutoff result fs
    refine ⟨create_file.content (n : Int), ?_, ?_⟩
    · rw [(run_effects heap b _ fs).1]
      simp [create_file]
    · rw [hlen]; exact hlt

/-- Witness of claim C10: the default `n = 24` gives a file of 38 bytes against the
96 of 24 blocks. -/
theorem create_file_shorter_than_blocks_witness :
    (create_file.content 24).length = 38 ∧ ((38 : Nat) : Int) < 24 * sizeof_int := by
  have h := create_file_shorter_than_blocks 24 (by decide) (by decide)
  have ht : totalDigits 24 = 38 := by
    rw [totalDigits_closed 24 (by decide)]; decide
  rw [ht] at h
  exact ⟨by simpa using h.1, by simpa using h.2.1⟩


end ParallelFileMap
